import Mathlib

/-!
Verification development for the OnlyKey host-side client
(`src/onlykey/client.py`).  The wire-protocol engine is shallowly
embedded: byte strings become `List Nat` (each element one byte value),
Python `None`/enum arguments become `Option Nat`, and Python integer
truthiness (`if slot_id:`) is modelled by treating the value `0` as
absent.  Fallible paths (Python exceptions) are modelled with explicit
result constructors, and the unbounded polling loop of `sign`/`getpub`
is modelled with an explicit fuel argument.
-/

namespace OnlyKey

/-- Constant from client.py line 15. -/
def MAX_INPUT_REPORT_SIZE : Nat := 64

/-- Constant from client.py line 16. -/
def MAX_LARGE_PAYLOAD_SIZE : Nat := 58

/-- Constant from client.py line 19: the four 0xFF marker bytes. -/
def MESSAGE_HEADER : List Nat := [255, 255, 255, 255]

/-- Message enum value OKSETSLOT (client.py line 79). -/
def OKSETSLOT : Nat := 230

/-- Message enum value OKWIPESLOT (client.py line 80). -/
def OKWIPESLOT : Nat := 231

/-- Message enum value OKGETLABELS (client.py line 78). -/
def OKGETLABELS : Nat := 229

/-- Message enum value OKSIGNCHALLENGE (client.py line 86). -/
def OKSIGNCHALLENGE : Nat := 237

/-- The raw byte list built by `OnlyKey.send_message` (client.py lines
173-204) before zero padding: the four header bytes, then the message
enum value when a `Message` is given, then the slot id when it is a
non-zero integer (Python truthiness: `if slot_id:`), then the field enum
value when a `MessageField` is given, then the payload bytes.  Enum
members are always truthy in Python, so `msg` and `message_field` are
`Option Nat`; a missing payload behaves like an empty list. -/
def send_message_raw (msg : Option Nat) (slot_id : Nat)
    (message_field : Option Nat) (payload : List Nat) : List Nat :=
  MESSAGE_HEADER
    ++ (match msg with | some m => [m] | none => [])
    ++ (if slot_id ≠ 0 then [slot_id] else [])
    ++ (match message_field with | some f => [f] | none => [])
    ++ payload

/-- The report written by `OnlyKey.send_message` (client.py lines
173-214): the raw bytes padded with zeros up to 64 bytes (`while
len(raw_bytes) < MAX_INPUT_REPORT_SIZE: raw_bytes.append(0)`).  When the
raw bytes already reach 64 the loop body never runs, so an oversized
report is passed to the transport unchanged. -/
def send_message (msg : Option Nat) (slot_id : Nat)
    (message_field : Option Nat) (payload : List Nat) : List Nat :=
  send_message_raw msg slot_id message_field payload
    ++ List.replicate
        (MAX_INPUT_REPORT_SIZE
          - (send_message_raw msg slot_id message_field payload).length) 0

/-- The challenge-digit map `get_button` from `OnlyKey.sign` (client.py
lines 400-404) and `OnlyKey.decrypt` (lines 648-652): byte values below
6 map to 1, all others to `b % 5 + 1`. -/
def get_button (b : Nat) : Nat :=
  if b < 6 then 1 else b % 5 + 1

/-- The three challenge digits derived in `OnlyKey.sign` (client.py line
406): `get_button` applied to the digest bytes at offsets 0, 15 and 31.
The SHA-256 digest itself is computed by the external `hashlib` library,
so it is taken here as the input list `d` (the code asserts its length
is 32). -/
def challenge_digits (d : List Nat) : Nat × Nat × Nat :=
  (get_button (d.getD 0 0), get_button (d.getD 15 0), get_button (d.getD 31 0))

/-- Recursion core of the chunk split of `OnlyKey.send_large_message`
(client.py line 222).  The slicing loop `[payload[x:x+58] for x in
xrange(0, len(payload), 58)]` takes successive slices of at most 58
bytes; the extra `fuel` argument only makes the recursion structural
(each slice is non-empty, so a fuel equal to the list length is never
exhausted — `chunks58_go_fuel` below proves fuel irrelevance). -/
def chunks58_go : Nat → List Nat → List (List Nat)
  | _, [] => []
  | 0, _ :: _ => []
  | fuel + 1, a :: rest =>
      ((a :: rest).take MAX_LARGE_PAYLOAD_SIZE)
        :: chunks58_go fuel ((a :: rest).drop MAX_LARGE_PAYLOAD_SIZE)

/-- The chunk split performed by `OnlyKey.send_large_message` (client.py
line 222): successive slices of at most 58 bytes. -/
def chunks58 (payload : List Nat) : List (List Nat) :=
  chunks58_go payload.length payload

/-- The per-chunk payload built inside the loop of
`OnlyKey.send_large_message` (client.py lines 226-236): the marker byte
255 (continuation) replaced by the literal chunk length when the chunk
is shorter than 58 bytes, followed by the chunk bytes. -/
def encode_chunk_headerless (chunk : List Nat) : List Nat :=
  (if chunk.length < MAX_LARGE_PAYLOAD_SIZE then [chunk.length] else [255])
    ++ chunk

/-- The sequence of reports written by `OnlyKey.send_large_message`
(client.py lines 216-240): each chunk's encoded payload is passed to
`send_message` with only `msg` set.  The Python parameter `slot_id`
(default `chr(101)`) is bound but never used in the body, which this
embedding reproduces faithfully. -/
def send_large_message (payload : List Nat) (msg : Nat)
    (slot_id : Nat) : List (List Nat) :=
  (chunks58 payload).map
    (fun chunk => send_message (some msg) 0 none (encode_chunk_headerless chunk))

/-- `OnlyKey.read_string` (client.py lines 305-307): join the characters
of one inbound report, keeping only the bytes that are not 0 —
`''.join([chr(item) for item in ... if item != 0])`.  Every zero byte is
removed, wherever it occurs in the report. -/
def read_string (report : List Nat) : List Nat :=
  report.filter (fun item => item ≠ 0)

/-- Python 2 `str.split(sep)` on byte strings, as used by
`OnlyKey.getlabels` (client.py line 318): splits on every occurrence of
the separator and keeps empty segments, so the result is always
non-empty (`''.split('|') == ['']`). -/
def pysplit (sep : Nat) : List Nat → List (List Nat)
  | [] => [[]]
  | c :: rest =>
      if c = sep then [] :: pysplit sep rest
      else
        match pysplit sep rest with
        | [] => [[c]]
        | d :: ds => (c :: d) :: ds

/-- Outcome of processing one label response inside the loop of
`OnlyKey.getlabels` / `OnlyKey.getkeylabels`: a raised Python exception
(`err`), a response silently dropped by the range check (`skip`), or an
appended slot record (`ok number label`). -/
inductive ParseResult where
  | err : ParseResult
  | skip : ParseResult
  | ok : Nat → List Nat → ParseResult
deriving DecidableEq

/-- The receive-side slot-number remap of `OnlyKey.getlabels` (client.py
lines 320-321): wire values at least 16 have 6 subtracted. -/
def rx_remap (c : Nat) : Nat :=
  if c ≥ 16 then c - 6 else c

/-- One iteration of the loop in `OnlyKey.getlabels` (client.py lines
317-323) applied to the string returned by `read_string`:
`data = s.split('|')`, then `slot_number = ord(data[0])` — which raises
`TypeError` unless `data[0]` is exactly one character — then the remap,
then the range check `1 <= slot_number <= 12`; in-range responses read
`data[1]` as the label (raising `IndexError` when there is no second
segment), out-of-range responses are skipped. -/
def process_label_response (s : List Nat) : ParseResult :=
  match pysplit 124 s with
  | [c] :: rest =>
      let slot_number := rx_remap c
      if 1 ≤ slot_number ∧ slot_number ≤ 12 then
        match rest with
        | d1 :: _ => .ok slot_number d1
        | [] => .err
      else .skip
  | _ => .err

/-- One iteration of the loop in `OnlyKey.getkeylabels` (client.py lines
334-338): same shape as `process_label_response` but with no remap and
the range check `25 <= slot_number <= 60`. -/
def process_keylabel_response (s : List Nat) : ParseResult :=
  match pysplit 124 s with
  | [c] :: rest =>
      if 25 ≤ c ∧ c ≤ 60 then
        match rest with
        | d1 :: _ => .ok c d1
        | [] => .err
      else .skip
  | _ => .err

/-- The response-processing phase of `OnlyKey.getlabels` (client.py lines
316-324) over the list of inbound reports consumed by its 12 reads: each
report goes through `read_string` and the loop body; a raised exception
aborts the call (`none`), otherwise the in-range slot records are
accumulated in order. -/
def getlabels (reports : List (List Nat)) : Option (List (Nat × List Nat)) :=
  reports.foldl
    (fun acc report =>
      match acc with
      | none => none
      | some slots =>
          match process_label_response (read_string report) with
          | .err => none
          | .skip => some slots
          | .ok n lbl => some (slots ++ [(n, lbl)]))
    (some [])

/-- `OnlyKey.setslot` (client.py lines 362-367): slot numbers at least 10
are offset by 6, then a single `OKSETSLOT` report carrying the slot id,
the field code and the value is sent. -/
def setslot (slot_number : Nat) (message_field : Nat)
    (value : List Nat) : List Nat :=
  let sn := if slot_number ≥ 10 then slot_number + 6 else slot_number
  send_message (some OKSETSLOT) sn (some message_field) value

/-- `OnlyKey.wipeslot` (client.py lines 372-374): a single `OKWIPESLOT`
report carrying the slot number exactly as given — no remap is applied
before transmission. -/
def wipeslot (slot_number : Nat) : List Nat :=
  send_message (some OKWIPESLOT) slot_number none []

/-- The first-part polling loop of `OnlyKey.sign` (client.py lines
416-419) and `OnlyKey.getpub` (lines 531-534): `while ok_sign1 == '':
ok_sign1 = self.read_bytes(64, to_str=True)`.  The transport is a
function from read index to the bytes returned by that read; the Python
loop has no iteration bound, so it is embedded with explicit fuel:
`none` means the loop has not produced a value within `fuel` reads. -/
def read_sig_part1 (reads : Nat → List Nat) : Nat → Nat → Option (List Nat × Nat)
  | 0, _ => none
  | fuel + 1, k =>
      let r := reads k
      if r = [] then read_sig_part1 reads fuel (k + 1)
      else some (r, k + 1)

/-- Modelled from the spec (section 4.3): the spec-side reading of
`readOne` — "reads a single report and strips trailing zero bytes".
This definition follows the spec's words and exists only to be compared
with the source-side `read_string`; it removes the trailing run of
zeros and nothing else. -/
def stripTrailingZeros (report : List Nat) : List Nat :=
  (report.reverse.dropWhile (fun b => b = 0)).reverse

/-- The bounded retry loop used for response parts 2-8 in `OnlyKey.sign`
(client.py lines 425-428 and the six copies below it) and
`OnlyKey.getpub`: `for _ in xrange(10): x = self.read_bytes(64,
to_str=True); if len(x) == 64: break`.  Returns the part kept by the
loop (the first full 64-byte read, or the last short read when all
attempts are short) together with the index of the next unconsumed
read. -/
def read_part_loop (reads : Nat → List Nat) : Nat → Nat → List Nat × Nat
  | 0, k => ([], k)
  | attempts + 1, k =>
      let r := reads k
      if r.length = 64 then (r, k + 1)
      else
        match attempts with
        | 0 => (r, k + 1)
        | a + 1 => read_part_loop reads (a + 1) (k + 1)

/-! Helper lemmas about the report encoder. -/

/-- The byte at offset 5 of a report carrying a message code and a
non-zero slot id is the slot id, whatever else follows. -/
theorem send_message_getD5_slot (m s : Nat) (f : Option Nat) (p : List Nat)
    (hs : s ≠ 0) : (send_message (some m) s f p).getD 5 0 = s := by
  cases f <;>
    simp [send_message, send_message_raw, MESSAGE_HEADER, hs,
      List.getD_cons_succ, List.getD_cons_zero]

/-- The byte at offset 5 of a report carrying only a message code and a
non-empty payload is the payload's first byte. -/
theorem send_message_getD5_payload (m x : Nat) (xs : List Nat) :
    (send_message (some m) 0 none (x :: xs)).getD 5 0 = x := by
  simp [send_message, send_message_raw, MESSAGE_HEADER,
    List.getD_cons_succ, List.getD_cons_zero]

/-- C1.  The claim states that `send_message` fails with
`PayloadTooLargeError` when the combined encoded length exceeds 64
bytes.  The source contains no such check (and no such error class):
padding is the only length-sensitive step, so an oversized encoding is
handed to the transport at its full length.  Concretely, a 61-byte
payload with a message code yields a 66-byte report, not a failure. -/
theorem C1_counterexample :
    send_message (some 230) 0 none (List.replicate 61 65)
        = [255, 255, 255, 255, 230] ++ List.replicate 61 65
      ∧ (send_message (some 230) 0 none (List.replicate 61 65)).length = 66 := by
  constructor <;> decide

/-- C1 (amended).  When the combined header+message+slot+field+payload
encoding exceeds 64 bytes, `send_message` performs no size check: the
padding loop never runs and the oversized raw bytes are transmitted
unchanged, so the written report is longer than 64 bytes and no error is
raised. -/
theorem C1_oversize_passthrough (msg : Option Nat) (slot_id : Nat)
    (message_field : Option Nat) (payload : List Nat)
    (h : 64 < (send_message_raw msg slot_id message_field payload).length) :
    send_message msg slot_id message_field payload
        = send_message_raw msg slot_id message_field payload
      ∧ 64 < (send_message msg slot_id message_field payload).length := by
  have hz : MAX_INPUT_REPORT_SIZE
      - (send_message_raw msg slot_id message_field payload).length = 0 := by
    simp only [MAX_INPUT_REPORT_SIZE]
    omega
  refine ⟨?_, ?_⟩
  · simp [send_message, hz]
  · simp [send_message, hz]
    omega

/-- C1 witness: the amended statement at the concrete oversized input. -/
theorem C1_witness :
    send_message (some 230) 0 none (List.replicate 61 66)
        = send_message_raw (some 230) 0 none (List.replicate 61 66)
      ∧ 64 < (send_message (some 230) 0 none (List.replicate 61 66)).length :=
  C1_oversize_passthrough (some 230) 0 none (List.replicate 61 66) (by decide)

/-- Range of the challenge-digit map: always within [1,5]. -/
theorem get_button_range (b : Nat) : 1 ≤ get_button b ∧ get_button b ≤ 5 := by
  simp only [get_button]
  split <;> omega

/-- C2.  The challenge derivation maps the digest bytes at offsets 0, 15
and 31 through `get_button`, which sends every byte value below 6 to 1
and every other value `b` to `b % 5 + 1`; every digit lies in [1,5], and
the known vectors hold: 3 maps to 1, 10 maps to 1, 7 maps to 3.
Determinism is inherent in the embedding: `challenge_digits` is a pure
function of the digest, which `hashlib` computes deterministically from
the payload. -/
theorem C2_challenge_derivation :
    (∀ b : Nat, 1 ≤ get_button b ∧ get_button b ≤ 5)
      ∧ (∀ d : List Nat,
          challenge_digits d
            = (get_button (d.getD 0 0), get_button (d.getD 15 0),
                get_button (d.getD 31 0))
          ∧ 1 ≤ (challenge_digits d).1 ∧ (challenge_digits d).1 ≤ 5
          ∧ 1 ≤ (challenge_digits d).2.1 ∧ (challenge_digits d).2.1 ≤ 5
          ∧ 1 ≤ (challenge_digits d).2.2 ∧ (challenge_digits d).2.2 ≤ 5)
      ∧ get_button 3 = 1 ∧ get_button 10 = 1 ∧ get_button 7 = 3 := by
  refine ⟨get_button_range, ?_, by decide, by decide, by decide⟩
  intro d
  exact ⟨rfl, (get_button_range _).1, (get_button_range _).2,
    (get_button_range _).1, (get_button_range _).2,
    (get_button_range _).1, (get_button_range _).2⟩

/-- C3.  The claim states that both `setslot` and `wipeslot` remap slot
numbers at least 10 by adding 6 before transmission.  `wipeslot` applies
no remap: wiping slot 10 puts wire value 10, not 16, at the slot-id
byte of the outgoing report. -/
theorem C3_counterexample :
    (wipeslot 10).getD 5 0 = 10 ∧ (wipeslot 10).getD 5 0 ≠ 16 := by
  constructor <;> decide

/-- C3 (amended).  Only `setslot` applies the short-form remap: for every
slot number at least 10 it transmits the number plus 6, while `wipeslot`
transmits the given slot number unchanged. -/
theorem C3_remap_setslot_only (s mf : Nat) (v : List Nat) (hs : 10 ≤ s)
    (s2 : Nat) :
    (setslot s mf v).getD 5 0 = s + 6 ∧ (wipeslot s2).getD 5 0 = s2 := by
  constructor
  · have h6 : s + 6 ≠ 0 := by omega
    simp only [setslot, if_pos hs]
    exact send_message_getD5_slot _ _ _ _ h6
  · rcases Nat.eq_zero_or_pos s2 with h0 | hpos
    · subst h0
      decide
    · exact send_message_getD5_slot _ _ _ _ (by omega)

/-- C3 witness: the amended statement at slot 10 for `setslot` and slot
11 for `wipeslot`. -/
theorem C3_witness :
    (setslot 10 1 []).getD 5 0 = 16 ∧ (wipeslot 11).getD 5 0 = 11 :=
  C3_remap_setslot_only 10 1 [] (by decide) 11

/-! Helper lemmas about the headerless chunk split. -/

/-- The fuel argument of `chunks58_go` is irrelevant as long as it is at
least the list length. -/
theorem chunks58_go_fuel : ∀ (f1 f2 : Nat) (l : List Nat),
    l.length ≤ f1 → l.length ≤ f2 → chunks58_go f1 l = chunks58_go f2 l
  | f1, f2, [], _, _ => by cases f1 <;> cases f2 <;> rfl
  | 0, _, _ :: _, h1, _ => by simp at h1
  | _ + 1, 0, _ :: _, _, h2 => by simp at h2
  | f1 + 1, f2 + 1, a :: rest, h1, h2 => by
      simp only [chunks58_go]
      rw [chunks58_go_fuel f1 f2 ((a :: rest).drop MAX_LARGE_PAYLOAD_SIZE)
        (by simp only [List.length_drop, List.length_cons,
              MAX_LARGE_PAYLOAD_SIZE] at *; omega)
        (by simp only [List.length_drop, List.length_cons,
              MAX_LARGE_PAYLOAD_SIZE] at *; omega)]

/-- The chunk split of the empty payload is empty. -/
theorem chunks58_nil : chunks58 [] = [] := rfl

/-- Unfolding equation of the chunk split on a non-empty payload. -/
theorem chunks58_cons (a : Nat) (rest : List Nat) :
    chunks58 (a :: rest)
      = ((a :: rest).take MAX_LARGE_PAYLOAD_SIZE)
          :: chunks58 ((a :: rest).drop MAX_LARGE_PAYLOAD_SIZE) := by
  show chunks58_go (rest.length + 1) (a :: rest) = _
  simp only [chunks58_go]
  rw [chunks58_go_fuel rest.length ((a :: rest).drop MAX_LARGE_PAYLOAD_SIZE).length
    ((a :: rest).drop MAX_LARGE_PAYLOAD_SIZE)
    (by simp only [List.length_drop, List.length_cons, MAX_LARGE_PAYLOAD_SIZE]
        omega)
    (Nat.le_refl _)]
  rfl

/-- The chunk split is empty exactly on the empty payload. -/
theorem chunks58_eq_nil_iff (l : List Nat) : chunks58 l = [] ↔ l = [] := by
  cases l with
  | nil => simp [chunks58_nil]
  | cons a rest => simp [chunks58_cons]

/-- Concatenating the chunks in order reproduces the payload. -/
theorem chunks58_flatten : ∀ l : List Nat, (chunks58 l).flatten = l
  | [] => rfl
  | a :: rest => by
      rw [chunks58_cons, List.flatten_cons,
        chunks58_flatten ((a :: rest).drop MAX_LARGE_PAYLOAD_SIZE),
        List.take_append_drop]
termination_by l => l.length
decreasing_by
  simp only [List.length_drop, List.length_cons, MAX_LARGE_PAYLOAD_SIZE]
  omega

/-- The number of chunks is the ceiling of the payload length over 58. -/
theorem chunks58_length_eq : ∀ l : List Nat,
    (chunks58 l).length = (l.length + 57) / 58
  | [] => rfl
  | a :: rest => by
      rw [chunks58_cons, List.length_cons,
        chunks58_length_eq ((a :: rest).drop MAX_LARGE_PAYLOAD_SIZE),
        List.length_drop]
      simp only [List.length_cons, MAX_LARGE_PAYLOAD_SIZE]
      omega
termination_by l => l.length
decreasing_by
  simp only [List.length_drop, List.length_cons, MAX_LARGE_PAYLOAD_SIZE]
  omega

/-- Every chunk except possibly the last has length exactly 58. -/
theorem chunks58_getD_length : ∀ (l : List Nat) (i : Nat),
    i + 1 < (chunks58 l).length → ((chunks58 l).getD i []).length = 58
  | [], i, h => by rw [chunks58_nil] at h; simp at h
  | a :: rest, 0, h => by
      rw [chunks58_cons] at h ⊢
      simp only [List.length_cons] at h
      have hdrop : (a :: rest).drop MAX_LARGE_PAYLOAD_SIZE ≠ [] := by
        intro hnil
        rw [hnil, chunks58_nil] at h
        simp at h
      have hlen : MAX_LARGE_PAYLOAD_SIZE < (a :: rest).length := by
        by_contra hle
        exact hdrop (List.drop_eq_nil_of_le (by omega))
      simp only [List.getD_cons_zero, List.length_take]
      simp only [MAX_LARGE_PAYLOAD_SIZE] at *
      omega
  | a :: rest, i + 1, h => by
      rw [chunks58_cons] at h ⊢
      simp only [List.length_cons] at h
      simp only [List.getD_cons_succ]
      exact chunks58_getD_length ((a :: rest).drop MAX_LARGE_PAYLOAD_SIZE) i
        (by omega)
termination_by l i => l.length
decreasing_by
  all_goals
    simp only [List.length_drop, List.length_cons, MAX_LARGE_PAYLOAD_SIZE]
    omega

/-- The report at position `i` of a headerless chunked send is the
single-report encoding of the `i`-th chunk. -/
theorem send_large_message_getD (p : List Nat) (m sid i : Nat)
    (h : i < (chunks58 p).length) :
    (send_large_message p m sid).getD i []
      = send_message (some m) 0 none
          (encode_chunk_headerless ((chunks58 p).getD i [])) := by
  simp only [send_large_message, List.getD_eq_getElem?_getD, List.getElem?_map,
    List.getElem?_eq_getElem h]
  simp

/-- An encoded chunk of the full 58 bytes begins with the continuation
marker 255. -/
theorem encode_chunk_headerless_full (c : List Nat) (hc : c.length = 58) :
    encode_chunk_headerless c = 255 :: c := by
  simp [encode_chunk_headerless, MAX_LARGE_PAYLOAD_SIZE, hc]

/-- An encoded chunk shorter than 58 bytes begins with its literal
length. -/
theorem encode_chunk_headerless_short (c : List Nat) (hc : c.length < 58) :
    encode_chunk_headerless c = c.length :: c := by
  simp [encode_chunk_headerless, MAX_LARGE_PAYLOAD_SIZE, hc]

/-- Stripping the marker byte from an encoded chunk payload gives back
the chunk. -/
theorem encode_chunk_headerless_drop (c : List Nat) :
    (encode_chunk_headerless c).drop 1 = c := by
  simp only [encode_chunk_headerless]
  split <;> simp

/-- C4.  The headerless chunked sender emits exactly `ceil(L/58)`
reports; every report other than the last carries the continuation
marker 255 at the first payload byte (offset 5 of the report, after the
4 header bytes and the message code); a final chunk shorter than 58
bytes carries its literal length there; and concatenating the per-chunk
payloads minus the marker byte, in emission order, reproduces the
original payload exactly. -/
theorem C4_headerless_chunking (payload : List Nat) (msg sid : Nat) :
    (send_large_message payload msg sid).length = (payload.length + 57) / 58
      ∧ (∀ i, i + 1 < (chunks58 payload).length →
          ((send_large_message payload msg sid).getD i []).getD 5 0 = 255)
      ∧ (∀ i, i + 1 = (chunks58 payload).length →
          ((chunks58 payload).getD i []).length < 58 →
          ((send_large_message payload msg sid).getD i []).getD 5 0
            = ((chunks58 payload).getD i []).length)
      ∧ ((chunks58 payload).map
          (fun c => (encode_chunk_headerless c).drop 1)).flatten = payload := by
  refine ⟨?_, ?_, ?_, ?_⟩
  · rw [send_large_message, List.length_map]
    exact chunks58_length_eq payload
  · intro i h
    rw [send_large_message_getD payload msg sid i (by omega)]
    rw [encode_chunk_headerless_full _ (chunks58_getD_length payload i h)]
    exact send_message_getD5_payload _ _ _
  · intro i hlast hshort
    rw [send_large_message_getD payload msg sid i (by omega)]
    rw [encode_chunk_headerless_short _ hshort]
    exact send_message_getD5_payload _ _ _
  · simp only [encode_chunk_headerless_drop, List.map_id_fun', List.map_id]
    exact chunks58_flatten payload

/-- C4 witness: a 60-byte payload splits into two reports, the first
marked 255 and the second marked with the final chunk length, and the
stripped chunks concatenate back to the payload. -/
theorem C4_witness :
    (send_large_message (List.replicate 60 7) 237 0).length = 2
      ∧ ((send_large_message (List.replicate 60 7) 237 0).getD 0 []).getD 5 0 = 255
      ∧ ((send_large_message (List.replicate 60 7) 237 0).getD 1 []).getD 5 0
          = ((chunks58 (List.replicate 60 7)).getD 1 []).length
      ∧ ((chunks58 (List.replicate 60 7)).map
          (fun c => (encode_chunk_headerless c).drop 1)).flatten
          = List.replicate 60 7 := by
  have h := C4_headerless_chunking (List.replicate 60 7) 237 0
  exact ⟨h.1.trans (by decide), h.2.1 0 (by decide),
    h.2.2.1 1 (by decide) (by decide), h.2.2.2⟩

/-- C9.  The `slot_id` parameter of `send_large_message` is bound with a
default but never read in the body, so the transmitted report sequence
is identical for any two values of it, for every message kind and
payload. -/
theorem C9_slot_id_unused (payload : List Nat) (msg s1 s2 : Nat) :
    send_large_message payload msg s1 = send_large_message payload msg s2 := rfl

/-! Helper lemmas about zero stripping. -/

/-- Every report is its trailing-zero-stripped form followed by the
trailing run of zeros. -/
theorem stripTrailingZeros_append (r : List Nat) :
    stripTrailingZeros r
        ++ (r.reverse.takeWhile (fun b => b = 0)).reverse = r := by
  calc stripTrailingZeros r ++ (r.reverse.takeWhile (fun b => b = 0)).reverse
      = (r.reverse.takeWhile (fun b => b = 0)
          ++ r.reverse.dropWhile (fun b => b = 0)).reverse := by
        rw [List.reverse_append]; rfl
    _ = r.reverse.reverse := by rw [List.takeWhile_append_dropWhile]
    _ = r := List.reverse_reverse r

/-- Every byte of the trailing run is zero. -/
theorem trailing_run_all_zero (r : List Nat) :
    ∀ x ∈ (r.reverse.takeWhile (fun b => b = 0)).reverse, x = 0 := by
  intro x hx
  rw [List.mem_reverse] at hx
  simpa using List.mem_takeWhile_imp hx

/-- C5.  The claim states that `read_string` removes only the trailing
run of zero bytes and preserves interior zeros in place.  The source
filters out every byte equal to 0, so the report `[65, 0, 66, 0, 0]`
comes back as `[65, 66]`, not as the trailing-stripped `[65, 0, 66]`. -/
theorem C5_counterexample :
    read_string [65, 0, 66, 0, 0] = [65, 66]
      ∧ stripTrailingZeros [65, 0, 66, 0, 0] = [65, 0, 66]
      ∧ read_string [65, 0, 66, 0, 0] ≠ stripTrailingZeros [65, 0, 66, 0, 0] := by
  refine ⟨?_, ?_, ?_⟩ <;> decide

/-- C5 (amended).  `read_string` removes every zero byte of the inbound
report, interior ones included; its result agrees with trailing-zero
stripping exactly when the stripped report contains no zero byte at
all. -/
theorem C5_read_string_filters_all_zeros (r : List Nat) :
    read_string r = r.filter (fun b => b ≠ 0)
      ∧ (read_string r = stripTrailingZeros r ↔ 0 ∉ stripTrailingZeros r) := by
  refine ⟨rfl, ?_, ?_⟩
  · intro he h0mem
    have hmem : (0 : Nat) ∈ read_string r := by rw [he]; exact h0mem
    rw [read_string, List.mem_filter] at hmem
    simp at hmem
  · intro h0
    rw [read_string]
    conv_lhs => rw [← stripTrailingZeros_append r]
    rw [List.filter_append]
    have hz : (r.reverse.takeWhile (fun b => b = 0)).reverse.filter
        (fun b => b ≠ 0) = [] := by
      rw [List.filter_eq_nil_iff]
      intro a ha
      have := trailing_run_all_zero r a ha
      simp [this]
    have hs : (stripTrailingZeros r).filter (fun b => b ≠ 0)
        = stripTrailingZeros r := by
      rw [List.filter_eq_self]
      intro a ha
      simp only [decide_eq_true_eq]
      intro heq
      exact h0 (heq ▸ ha)
    rw [hz, hs, List.append_nil]

/-- C5 witness: the amended equivalence applied at a report with no
interior zero. -/
theorem C5_witness : read_string [1, 2] = stripTrailingZeros [1, 2] :=
  (C5_read_string_filters_all_zeros [1, 2]).2.mpr (by decide)

/-! Helper lemmas about the pipe split. -/

/-- A byte string free of the separator splits into a single segment. -/
theorem pysplit_no_sep (sep : Nat) : ∀ l : List Nat,
    sep ∉ l → pysplit sep l = [l]
  | [], _ => rfl
  | c :: rest, h => by
      have hc : c ≠ sep := fun he => h (he ▸ List.mem_cons_self c rest)
      rw [pysplit, if_neg hc,
        pysplit_no_sep sep rest (fun hm => h (List.mem_cons_of_mem c hm))]

/-- C6.  The slot-number remap round-trips: `setslot` on logical slot 10
puts wire value 16 at the slot-id byte; a label response whose first
byte is wire value 16 parses back to logical slot 10; and in general,
for every short-form slot `s` with `10 ≤ s ≤ 12`, a response carrying
`s + 6` parses back to `s`. -/
theorem C6_slot_remap_roundtrip :
    (∀ (mf : Nat) (v : List Nat), (setslot 10 mf v).getD 5 0 = 16)
      ∧ (∀ lbl : List Nat, 124 ∉ lbl →
          process_label_response (16 :: 124 :: lbl) = .ok 10 lbl)
      ∧ (∀ s : Nat, 10 ≤ s → s ≤ 12 → ∀ lbl : List Nat, 124 ∉ lbl →
          process_label_response ((s + 6) :: 124 :: lbl) = .ok s lbl) := by
  have hgen : ∀ s : Nat, 10 ≤ s → s ≤ 12 → ∀ lbl : List Nat, 124 ∉ lbl →
      process_label_response ((s + 6) :: 124 :: lbl) = .ok s lbl := by
    intro s hs1 hs2 lbl h124
    have hsplit : pysplit 124 ((s + 6) :: 124 :: lbl) = [s + 6] :: [lbl] := by
      rw [pysplit, if_neg (show ¬(s + 6 = 124) by omega), pysplit,
        if_pos rfl, pysplit_no_sep 124 lbl h124]
    have hrx : rx_remap (s + 6) = s := by
      rw [rx_remap, if_pos (show 16 ≤ s + 6 by omega)]
      omega
    rw [process_label_response, hsplit]
    dsimp only
    rw [hrx, if_pos ⟨by omega, hs2⟩]
  refine ⟨?_, ?_, hgen⟩
  · intro mf v
    exact send_message_getD5_slot OKSETSLOT 16 (some mf) v (by omega)
  · intro lbl h124
    exact hgen 10 (by omega) (by omega) lbl h124

/-- C6 witness: the round-trip at slot 10 (wire 16) and slot 11 (wire
17) with a one-byte label. -/
theorem C6_witness :
    (setslot 10 1 [65]).getD 5 0 = 16
      ∧ process_label_response (16 :: 124 :: [65]) = .ok 10 [65]
      ∧ process_label_response ((11 + 6) :: 124 :: [65]) = .ok 11 [65] :=
  ⟨C6_slot_remap_roundtrip.1 1 [65],
    C6_slot_remap_roundtrip.2.1 [65] (by decide),
    C6_slot_remap_roundtrip.2.2 11 (by decide) (by decide) [65] (by decide)⟩

/-! Helper lemmas about the response-collection loops. -/

/-- On a transport whose every read returns empty, the first-part poll
loop yields nothing, whatever the fuel and starting read index. -/
theorem read_sig_part1_all_empty : ∀ n k : Nat,
    read_sig_part1 (fun _ => []) n k = none
  | 0, _ => rfl
  | n + 1, k => by
      rw [read_sig_part1]
      exact read_sig_part1_all_empty n (k + 1)

/-- Each bounded retry loop consumes at most as many reads as it has
attempts. -/
theorem read_part_loop_bound : ∀ (reads : Nat → List Nat) (attempts k : Nat),
    (read_part_loop reads attempts k).2 ≤ k + attempts
  | reads, 0, k => by simp [read_part_loop]
  | reads, 1, k => by
      simp only [read_part_loop]
      split <;> simp
  | reads, a + 2, k => by
      simp only [read_part_loop]
      split
      · simp
      · have := read_part_loop_bound reads (a + 1) (k + 1)
        omega

/-- C7.  The claim states that every part of the 8-part collection in
`sign`/`getpub`, the first included, is retried only a bounded number of
times, so the loop terminates for every transport behavior.  The first
part's loop is `while ok_sign1 == ''` with no iteration bound: on a
transport whose every read times out (returns empty), even a million
iterations produce nothing — the loop polls indefinitely. -/
theorem C7_counterexample :
    read_sig_part1 (fun _ => []) 1000000 0 = none :=
  read_sig_part1_all_empty 1000000 0

/-- C7 (amended).  Parts 2 through 8 are bounded: each `xrange(10)` retry
loop consumes at most 10 reads.  The first part's poll loop is
unbounded: on a transport all of whose reads return empty it never
produces a value, for any amount of fuel and any starting index. -/
theorem C7_first_part_unbounded :
    (∀ (reads : Nat → List Nat) (n k : Nat), (∀ j, reads j = []) →
        read_sig_part1 reads n k = none)
      ∧ (∀ (reads : Nat → List Nat) (attempts k : Nat),
          (read_part_loop reads attempts k).2 ≤ k + attempts) := by
  constructor
  · intro reads n
    induction n with
    | zero => intro k _; rfl
    | succ n ih =>
        intro k hempty
        rw [read_sig_part1]
        simp only [hempty k, if_pos rfl]
        exact ih (k + 1) hempty
  · exact read_part_loop_bound

/-- C7 witness: the unbounded-loop statement on the all-empty transport
with fuel 7, and the 10-attempt bound at a concrete transport. -/
theorem C7_witness :
    read_sig_part1 (fun _ => []) 7 0 = none
      ∧ (read_part_loop (fun _ => [0]) 10 0).2 ≤ 0 + 10 :=
  ⟨C7_first_part_unbounded.1 (fun _ => []) 7 0 (fun _ => rfl),
    C7_first_part_unbounded.2 (fun _ => [0]) 10 0⟩

/-- The pipe split never returns an empty list of segments. -/
theorem pysplit_ne_nil (sep : Nat) : ∀ l : List Nat, pysplit sep l ≠ []
  | [] => by simp [pysplit]
  | c :: rest => by
      by_cases hc : c = sep
      · simp [pysplit, hc]
      · rw [pysplit, if_neg hc]
        rcases hx : pysplit sep rest with _ | ⟨d, ds⟩ <;> simp

/-- The first segment of the pipe split is the run of bytes before the
first separator. -/
theorem pysplit_head (sep : Nat) : ∀ (l : List Nat) (d : List Nat)
    (ds : List (List Nat)), pysplit sep l = d :: ds →
    d = l.takeWhile (fun x => x ≠ sep)
  | [], d, ds, h => by
      rw [pysplit] at h
      injection h with h1 _
      rw [← h1]
      rfl
  | c :: rest, d, ds, h => by
      by_cases hc : c = sep
      · subst hc
        rw [pysplit, if_pos rfl] at h
        injection h with h1 _
        rw [← h1, List.takeWhile_cons]
        simp
      · rw [pysplit, if_neg hc] at h
        rcases hx : pysplit sep rest with _ | ⟨e, es⟩
        · exact absurd hx (pysplit_ne_nil sep rest)
        · rw [hx] at h
          injection h with h1 _
          have he := pysplit_head sep rest e es hx
          rw [← h1, List.takeWhile_cons]
          simp [hc, he]

/-- When the pipe split of `s` starts with a one-byte segment followed by
a second segment `d1`, that second segment is the run of bytes strictly
between the first and the second separator occurrence of `s`. -/
theorem pysplit_second (sep : Nat) : ∀ (s : List Nat) (c : Nat)
    (d1 : List Nat) (rest2 : List (List Nat)),
    pysplit sep s = [c] :: d1 :: rest2 →
    d1 = ((s.dropWhile (fun x => x ≠ sep)).tail).takeWhile (fun x => x ≠ sep) := by
  intro s
  cases s with
  | nil =>
      intro c d1 r2 h
      rw [pysplit] at h
      injection h with _ h2
      simp at h2
  | cons x xs =>
      intro c d1 r2 h
      by_cases hx : x = sep
      · subst hx
        rw [pysplit, if_pos rfl] at h
        injection h with h1 _
        simp at h1
      · rw [pysplit, if_neg hx] at h
        rcases hps : pysplit sep xs with _ | ⟨e, es⟩
        · exact absurd hps (pysplit_ne_nil sep xs)
        · rw [hps] at h
          injection h with h1 h2
          injection h1 with _ hee
          subst hee
          cases xs with
          | nil =>
              rw [pysplit] at hps
              injection hps with _ hes
              rw [← hes] at h2
              simp at h2
          | cons y ys =>
              by_cases hy : y = sep
              · rw [pysplit, if_pos hy] at hps
                injection hps with _ hps2
                have hd1 := pysplit_head sep ys d1 r2 (hps2.trans h2)
                have hdw : (x :: y :: ys).dropWhile (fun b => b ≠ sep)
                    = y :: ys := by
                  rw [List.dropWhile_cons, if_pos (by simp [hx]),
                    List.dropWhile_cons, if_neg (by simp [hy])]
                rw [hdw, List.tail_cons]
                exact hd1
              · rw [pysplit, if_neg hy] at hps
                rcases hps2 : pysplit sep ys with _ | ⟨e2, es2⟩
                · exact absurd hps2 (pysplit_ne_nil sep ys)
                · rw [hps2] at hps
                  injection hps with hbad _
                  simp at hbad

/-- C8.  The claim states that a parsed slot's label is the entire
remainder of the response after the first pipe.  The source reads
`data[1]` of the split, so only the segment up to the second pipe
survives: the response `[1, '|', 66, '|', 67]` parses to label `[66]`,
not `[66, 124, 67]`. -/
theorem C8_counterexample :
    process_label_response [1, 124, 66, 124, 67] = .ok 1 [66]
      ∧ process_label_response [1, 124, 66, 124, 67] ≠ .ok 1 [66, 124, 67] := by
  constructor <;> decide

/-- C8 (amended).  For every response in which a slot record is parsed
(by `getlabels` or `getkeylabels`), the label is the segment of the
response strictly between the first and second pipe bytes: text after a
second pipe is dropped, not preserved. -/
theorem C8_label_is_first_segment :
    (∀ (s : List Nat) (sn : Nat) (lbl : List Nat),
        process_label_response s = .ok sn lbl →
        lbl = ((s.dropWhile (fun x => x ≠ 124)).tail).takeWhile
          (fun x => x ≠ 124))
      ∧ (∀ (s : List Nat) (sn : Nat) (lbl : List Nat),
          process_keylabel_response s = .ok sn lbl →
          lbl = ((s.dropWhile (fun x => x ≠ 124)).tail).takeWhile
            (fun x => x ≠ 124)) := by
  constructor
  · intro s sn lbl h
    rcases hps : pysplit 124 s with _ | ⟨d0, rest⟩
    · exact absurd hps (pysplit_ne_nil 124 s)
    · unfold process_label_response at h
      rw [hps] at h
      cases d0 with
      | nil => simp at h
      | cons c d0t =>
          cases d0t with
          | cons c2 t2 => simp at h
          | nil =>
              dsimp only at h
              cases rest with
              | nil =>
                  split at h
                  · exact absurd h (by simp)
                  · exact absurd h (by simp)
              | cons d1 rs =>
                  split at h
                  · injection h with _ hlbl
                    rw [← hlbl]
                    exact pysplit_second 124 s c d1 rs hps
                  · exact absurd h (by simp)
  · intro s sn lbl h
    rcases hps : pysplit 124 s with _ | ⟨d0, rest⟩
    · exact absurd hps (pysplit_ne_nil 124 s)
    · unfold process_keylabel_response at h
      rw [hps] at h
      cases d0 with
      | nil => simp at h
      | cons c d0t =>
          cases d0t with
          | cons c2 t2 => simp at h
          | nil =>
              dsimp only at h
              cases rest with
              | nil =>
                  split at h
                  · exact absurd h (by simp)
                  · exact absurd h (by simp)
              | cons d1 rs =>
                  split at h
                  · injection h with _ hlbl
                    rw [← hlbl]
                    exact pysplit_second 124 s c d1 rs hps
                  · exact absurd h (by simp)

/-- C8 witness: the amended statement at concrete responses for the
password-slot parser and the key-slot parser. -/
theorem C8_witness :
    [66] = ((([1, 124, 66, 124, 67] : List Nat).dropWhile
        (fun x => x ≠ 124)).tail).takeWhile (fun x => x ≠ 124)
      ∧ [68] = ((([30, 124, 68] : List Nat).dropWhile
          (fun x => x ≠ 124)).tail).takeWhile (fun x => x ≠ 124) :=
  ⟨C8_label_is_first_segment.1 [1, 124, 66, 124, 67] 1 [66] (by decide),
    C8_label_is_first_segment.2 [30, 124, 68] 30 [68] (by decide)⟩

/-- C10.  The claim states that `getlabels` raises on any read lacking a
pipe, returning normally only when all 12 reads contain one.  A
one-byte pipe-free read whose (remapped) code is out of the 1..12 range
is silently skipped by the range check: twelve reads of the single byte
73 make `getlabels` return normally with an empty slot list rather than
raise. -/
theorem C10_counterexample :
    getlabels (List.replicate 12 [73]) = some []
      ∧ process_label_response (read_string [73]) = .skip := by
  constructor <;> decide

/-- C10 (amended).  `getlabels` raises on an empty read (`ord` of an
empty segment) and on any pipe-free read of two or more bytes (`ord` of
a multi-character segment); but a pipe-free single-byte read is only an
error when its remapped code lands in 1..12 (`data[1]` out of range) —
otherwise it is silently skipped, and skipped responses leave the
result exactly as if they had not been read at all, so the call can
return normally despite reads without a pipe. -/
theorem C10_error_conditions :
    process_label_response [] = .err
      ∧ (∀ s : List Nat, 2 ≤ s.length → (124 : Nat) ∉ s →
          process_label_response s = .err)
      ∧ (∀ c : Nat, c ≠ 124 → ¬(1 ≤ rx_remap c ∧ rx_remap c ≤ 12) →
          process_label_response [c] = .skip)
      ∧ (∀ c : Nat, c ≠ 124 → 1 ≤ rx_remap c → rx_remap c ≤ 12 →
          process_label_response [c] = .err)
      ∧ (∀ (rs1 rs2 : List (List Nat)) (r : List Nat),
          process_label_response (read_string r) = .skip →
          getlabels (rs1 ++ r :: rs2) = getlabels (rs1 ++ rs2)) := by
  refine ⟨rfl, ?_, ?_, ?_, ?_⟩
  · intro s hlen hmem
    obtain ⟨a, b, t, rfl⟩ : ∃ a b t, s = a :: b :: t := by
      cases s with
      | nil => simp at hlen
      | cons a s1 =>
          cases s1 with
          | nil => simp at hlen
          | cons b t => exact ⟨a, b, t, rfl⟩
    unfold process_label_response
    rw [pysplit_no_sep 124 _ hmem]
  · intro c hc hcond
    have hmem : (124 : Nat) ∉ [c] := by
      intro hm
      rw [List.mem_singleton] at hm
      exact hc hm.symm
    unfold process_label_response
    rw [pysplit_no_sep 124 _ hmem]
    dsimp only
    rw [if_neg hcond]
  · intro c hc h1 h2
    have hmem : (124 : Nat) ∉ [c] := by
      intro hm
      rw [List.mem_singleton] at hm
      exact hc hm.symm
    unfold process_label_response
    rw [pysplit_no_sep 124 _ hmem]
    dsimp only
    rw [if_pos ⟨h1, h2⟩]
  · intro rs1 rs2 r hskip
    unfold getlabels
    rw [List.foldl_append, List.foldl_cons, List.foldl_append]
    congr 1
    cases List.foldl _ (some []) rs1 with
    | none => rfl
    | some slots =>
        dsimp only
        rw [hskip]

/-- C10 witness: the amended statement at concrete reads — a two-byte
pipe-free read errors, byte 73 is skipped, byte 7 errors, and skipping
leaves the collected slots unchanged. -/
theorem C10_witness :
    process_label_response ([65, 66] : List Nat) = .err
      ∧ process_label_response [73] = .skip
      ∧ process_label_response [7] = .err
      ∧ getlabels ([[1, 124, 65]] ++ [73] :: []) = getlabels ([[1, 124, 65]] ++ []) := by
  have h := C10_error_conditions
  exact ⟨h.2.1 [65, 66] (by decide) (by decide),
    h.2.2.1 73 (by decide) (by decide),
    h.2.2.2.1 7 (by decide) (by decide) (by decide),
    h.2.2.2.2 [[1, 124, 65]] [] [73] (by decide)⟩

end OnlyKey
